import Mathlib

/-!
# PhysIKA: quadratic weight functions and the SPH neighbor list

A shallow embedding of

* `Physika_Core/Weight_Functions/quadratic_weight_functions.cpp`
  (`JohnsonQuadraticWeightFunction::weight`, `::gradient`, `::printInfo`),
* `Physika_Dynamics/SPH/sph_neighbor_query.h`
  (`NeighborList`, `INeighborQuery`).

The template parameter `Scalar` (float / double) is read in two ways. In
`JohnsonQuadraticWeightFunction` it is an exact rational: no rounding, overflow, infinity
or NaN; this is the reading of every statement that stipulates exact arithmetic. In
`JohnsonQuadraticWeightFunction_double` it is IEEE 754 binary64, the `double`
instantiation. In both, the integer literals of the C++ text keep their integer
arithmetic: `3/16` is the truncating quotient of two `int`s.
-/

namespace Physika

/-! ## Error reporting -/

/-- Ways in which an evaluation can fail. -/
inductive PhysikaError where
  | assertionFailed
  | wrongDimension
  | divisionByZero
  | invalidArgument
  deriving DecidableEq, Repr

/-- Modelled from the spec: the assertion of `physika_assert.h`, a header that is not embedded here.
Following section 9 of the specification it reports a failure as a result instead of aborting:
the evaluation continues only when the condition holds. -/
def PHYSIKA_ASSERT (c : Prop) [Decidable c] : Except PhysikaError Unit :=
  if c then pure () else throw PhysikaError.assertionFailed

/-- Modelled from the spec: the error exit of `physika_assert.h`, a header that is not
embedded here; the only use in the embedded code is `PHYSIKA_ERROR("Wrong dimension specified.")`. -/
def PHYSIKA_ERROR {α : Type} : Except PhysikaError α :=
  throw PhysikaError.wrongDimension

/-- Exact scalar division `x/y`, instrumented: a zero divisor is reported as
`divisionByZero` so that "this division never divides by zero" is a property of the result. -/
def sdiv (x y : ℚ) : Except PhysikaError ℚ :=
  if y = 0 then throw PhysikaError.divisionByZero else pure (x / y)

/-- The quotient of two `int` literals as C++ evaluates it (truncation toward zero),
converted to `Scalar` afterwards. -/
def intLit (p q : Int) : ℚ := ((Int.tdiv p q : Int) : ℚ)

/-! ## JohnsonQuadraticWeightFunction, exact scalar arithmetic -/

namespace JohnsonQuadraticWeightFunction

/-- The `switch(Dim)` block shared by `weight` and `gradient`: the normalisation factor `a`
for half radius `h`. The constant `PI` comes from `math_utilities.h`, which is not embedded
here, and is a parameter. -/
def normalisation (Dim : Int) (PI h : ℚ) : Except PhysikaError ℚ :=
  if Dim = 1 then sdiv 1 h
  else if Dim = 2 then sdiv 2 (PI * h * h)
  else if Dim = 3 then sdiv 5 (4 * PI * h * h * h)
  else PHYSIKA_ERROR

/-- Embedding of `JohnsonQuadraticWeightFunction<Scalar,Dim>::weight(r, R)`, every scalar
operation exact. -/
def weight (Dim : Int) (PI r R : ℚ) : Except PhysikaError ℚ := do
  PHYSIKA_ASSERT (r ≥ 0)
  PHYSIKA_ASSERT (R > 0)
  let h : ℚ := (1 / 2) * R
  let a ← normalisation Dim PI h
  let s ← sdiv r h
  pure (a * (intLit 3 16 * s * s - intLit 3 4 * s + intLit 3 4))

/-- Embedding of `JohnsonQuadraticWeightFunction<Scalar,Dim>::gradient(r, R)`, every scalar
operation exact. -/
def gradient (Dim : Int) (PI r R : ℚ) : Except PhysikaError ℚ := do
  PHYSIKA_ASSERT (r ≥ 0)
  PHYSIKA_ASSERT (R > 0)
  let h : ℚ := (1 / 2) * R
  let a ← normalisation Dim PI h
  let s ← sdiv r h
  let g ← sdiv 1 h
  pure (a * (intLit 3 8 * s * g - intLit 3 4 * g))

/-- The normalisation factor the text printed by `printInfo` names: `1/h`, `2/(PI*h^2)`,
`5/(4*PI*h^3)`; any other `Dim` is `PHYSIKA_ERROR`. -/
def printInfoFactor (Dim : Int) (PI h : ℚ) : Except PhysikaError ℚ :=
  if Dim = 1 then pure (1 / h)
  else if Dim = 2 then pure (2 / (PI * h ^ 2))
  else if Dim = 3 then pure (5 / (4 * PI * h ^ 3))
  else PHYSIKA_ERROR

/-- The formula printed by `printInfo`, read as mathematics (`3/16` and `3/4` are rational
numbers): `f(r) = a*(3/16*(r/h)^2 - 3/4*(r/h) + 3/4)` with `R = 2h`. -/
def printInfoFormula (Dim : Int) (PI r R : ℚ) : Except PhysikaError ℚ := do
  let h : ℚ := R / 2
  let a ← printInfoFactor Dim PI h
  pure (a * (3 / 16 * (r / h) ^ 2 - 3 / 4 * (r / h) + 3 / 4))

/-- The derivative in `r` of the printed formula: `a*(3/8*(r/h) - 3/4)/h`, with the same
factor `a` and rational `3/8`, `3/4`. -/
def printInfoDerivative (Dim : Int) (PI r R : ℚ) : Except PhysikaError ℚ := do
  let h : ℚ := R / 2
  let a ← printInfoFactor Dim PI h
  pure (a * (3 / 8 * (r / h) - 3 / 4) / h)

end JohnsonQuadraticWeightFunction

/-! ## IEEE 754 binary64 arithmetic

The source instantiates the class for `float` and `double`. The definitions above read
`Scalar` as an exact rational; the ones below follow the `double` instantiation bit for bit:
every operation returns the binary64 datum nearest to the exact result (ties to even), with
signed zeros, infinities and NaN. -/

/-- A binary64 datum: the finite number `(-1)^neg * m * 2^e`, an infinity, or NaN.
A finite datum with `m = 0` is a signed zero. -/
inductive Binary64 where
  | finite (neg : Bool) (m : Nat) (e : Int)
  | inf (neg : Bool)
  | nan
  deriving DecidableEq, Repr

namespace Binary64

/-- Number of binary digits of `m`, by repeated halving (`fuel` bounds the number of steps). -/
def bitLengthAux : Nat → Nat → Nat
  | 0, _ => 0
  | fuel + 1, m => if m = 0 then 0 else bitLengthAux fuel (m / 2) + 1

/-- Number of binary digits of `m`: `0` for `0`, otherwise `floor(log2 m) + 1`. -/
def bitLength (m : Nat) : Nat := bitLengthAux m m

/-- Rounding of the exact number `(-1)^neg * m * 2^e` to binary64, to nearest with ties to
even: 53 significant bits, least exponent of the last place `-1074` (subnormals), overflow
to infinity from `2^1024` on. -/
def round (neg : Bool) (m : Nat) (e : Int) : Binary64 :=
  if m = 0 then finite neg 0 0
  else
    let qe : Int := max (e + (bitLength m : Int) - 53) (-1074)
    if qe ≤ e then
      if e + (bitLength m : Int) > 1024 then inf neg else finite neg m e
    else
      let k : Nat := (qe - e).toNat
      let q : Nat := m / 2 ^ k
      let r : Nat := m % 2 ^ k
      let half : Nat := 2 ^ (k - 1)
      let n : Nat :=
        if r < half then q else if half < r then q + 1 else if q % 2 = 0 then q else q + 1
      if n = 0 then finite neg 0 0
      else if qe + (bitLength n : Int) > 1024 then inf neg
      else finite neg n qe

/-- Product `x * y`. -/
def mul : Binary64 → Binary64 → Binary64
  | nan, _ => nan
  | _, nan => nan
  | inf s, inf t => inf (xor s t)
  | inf s, finite t m _ => if m = 0 then nan else inf (xor s t)
  | finite s m _, inf t => if m = 0 then nan else inf (xor s t)
  | finite s m e, finite t m' e' => round (xor s t) (m * m') (e + e')

/-- Quotient `x / y`. For finite non-zero operands the integer quotient is taken with more
than 64 bits; a non-zero remainder is recorded as one further odd bit, which rounds as
the exact quotient does. -/
def div : Binary64 → Binary64 → Binary64
  | nan, _ => nan
  | _, nan => nan
  | inf _, inf _ => nan
  | inf s, finite t _ _ => inf (xor s t)
  | finite s _ _, inf t => finite (xor s t) 0 0
  | finite s m e, finite t m' e' =>
    if m' = 0 then (if m = 0 then nan else inf (xor s t))
    else
      let k : Nat := 64 + bitLength m'
      let q : Nat := (m * 2 ^ k) / m'
      let r : Nat := (m * 2 ^ k) % m'
      if r = 0 then round (xor s t) q (e - e' - k)
      else round (xor s t) (2 * q + 1) (e - e' - k - 1)

/-- The integer `(-1)^neg * m * 2^(e - c)`, for `c <= e`. -/
def scaled (neg : Bool) (m : Nat) (e c : Int) : Int :=
  (if neg then -1 else 1) * ((m * 2 ^ (e - c).toNat : Nat) : Int)

/-- Sum `x + y`. -/
def add : Binary64 → Binary64 → Binary64
  | nan, _ => nan
  | _, nan => nan
  | inf s, inf t => if s = t then inf s else nan
  | inf s, finite _ _ _ => inf s
  | finite _ _ _, inf t => inf t
  | finite s m e, finite t m' e' =>
    let c : Int := min e e'
    let sum : Int := scaled s m e c + scaled t m' e' c
    if sum = 0 then finite (s && t) 0 0
    else round (decide (sum < 0)) sum.natAbs c

/-- Negation `-x`. -/
def neg : Binary64 → Binary64
  | nan => nan
  | inf s => inf (!s)
  | finite s m e => finite (!s) m e

/-- Difference `x - y`. -/
def sub (x y : Binary64) : Binary64 := add x (neg y)

/-- Comparison `x < y`; false when an operand is NaN. -/
def lt : Binary64 → Binary64 → Bool
  | nan, _ => false
  | _, nan => false
  | inf s, inf t => s && !t
  | inf s, finite _ _ _ => s
  | finite _ _ _, inf t => !t
  | finite s m e, finite t m' e' =>
    decide (scaled s m e (min e e') < scaled t m' e' (min e e'))

/-- Comparison `x <= y`; false when an operand is NaN. -/
def le : Binary64 → Binary64 → Bool
  | nan, _ => false
  | _, nan => false
  | inf s, inf t => s || !t
  | inf s, finite _ _ _ => s
  | finite _ _ _, inf t => !t
  | finite s m e, finite t m' e' =>
    decide (scaled s m e (min e e') ≤ scaled t m' e' (min e e'))

/-- Conversion of an `int` to `double`. -/
def ofInt (i : Int) : Binary64 := round (decide (i < 0)) i.natAbs 0

end Binary64

instance : DecidableEq (Except PhysikaError Binary64) := fun a b =>
  match a, b with
  | Except.ok x, Except.ok y =>
    if h : x = y then isTrue (congrArg Except.ok h) else isFalse (fun h' => h (Except.ok.inj h'))
  | Except.error x, Except.error y =>
    if h : x = y then isTrue (congrArg Except.error h)
    else isFalse (fun h' => h (Except.error.inj h'))
  | Except.ok _, Except.error _ => isFalse (fun h => Except.noConfusion h)
  | Except.error _, Except.ok _ => isFalse (fun h => Except.noConfusion h)

/-! ## JohnsonQuadraticWeightFunction, `Scalar = double` -/

namespace JohnsonQuadraticWeightFunction_double

/-- The `switch(Dim)` block of `weight` and `gradient` in binary64: `1.0/h`,
`2.0/(PI*h*h)`, `5.0/(4*PI*h*h*h)`. `PI` is a parameter, as above. -/
def normalisation (Dim : Int) (PI h : Binary64) : Except PhysikaError Binary64 :=
  if Dim = 1 then pure (Binary64.div (Binary64.finite false 1 0) h)
  else if Dim = 2 then
    pure (Binary64.div (Binary64.finite false 2 0) (Binary64.mul (Binary64.mul PI h) h))
  else if Dim = 3 then
    pure (Binary64.div (Binary64.finite false 5 0)
      (Binary64.mul (Binary64.mul (Binary64.mul (Binary64.mul (Binary64.ofInt 4) PI) h) h) h))
  else PHYSIKA_ERROR

/-- The half radius `h = 0.5*R` in binary64. -/
def halfRadius (R : Binary64) : Binary64 :=
  Binary64.mul (Binary64.finite false 1 (-1)) R

/-- Embedding of `JohnsonQuadraticWeightFunction<double,Dim>::weight(r, R)`: the return
expression is `a*(((3/16)*s)*s - (3/4)*s + (3/4))`, every `int` quotient converted to
`double` where it meets a `double`. -/
def weight (Dim : Int) (PI r R : Binary64) : Except PhysikaError Binary64 := do
  PHYSIKA_ASSERT (Binary64.le (Binary64.ofInt 0) r = true)
  PHYSIKA_ASSERT (Binary64.lt (Binary64.ofInt 0) R = true)
  let h := halfRadius R
  let a ← normalisation Dim PI h
  let s := Binary64.div r h
  pure (Binary64.mul a
    (Binary64.add
      (Binary64.sub
        (Binary64.mul (Binary64.mul (Binary64.ofInt (Int.tdiv 3 16)) s) s)
        (Binary64.mul (Binary64.ofInt (Int.tdiv 3 4)) s))
      (Binary64.ofInt (Int.tdiv 3 4))))

/-- Embedding of `JohnsonQuadraticWeightFunction<double,Dim>::gradient(r, R)`: the return
expression is `a*(((3/8)*s)*(1.0/h) - (3/4)*(1.0/h))`. -/
def gradient (Dim : Int) (PI r R : Binary64) : Except PhysikaError Binary64 := do
  PHYSIKA_ASSERT (Binary64.le (Binary64.ofInt 0) r = true)
  PHYSIKA_ASSERT (Binary64.lt (Binary64.ofInt 0) R = true)
  let h := halfRadius R
  let a ← normalisation Dim PI h
  let s := Binary64.div r h
  let g := Binary64.div (Binary64.finite false 1 0) h
  pure (Binary64.mul a
    (Binary64.sub
      (Binary64.mul (Binary64.mul (Binary64.ofInt (Int.tdiv 3 8)) s) g)
      (Binary64.mul (Binary64.ofInt (Int.tdiv 3 4)) g)))

end JohnsonQuadraticWeightFunction_double

/-! ## NeighborList (`sph_neighbor_query.h`) -/

/-- The length of the two arrays `int ids_[150]` and `Scalar distance_[150]`; the header
names it only in the commented-out line `const int NEIGHBOR_SIZE = 150`. -/
abbrev NEIGHBOR_SIZE : Nat := 150

/-- Embedding of `class NeighborList<Scalar>`: three public data members. -/
structure NeighborList where
  size_ : Int
  ids_ : Fin NEIGHBOR_SIZE → Int
  distance_ : Fin NEIGHBOR_SIZE → ℚ

namespace NeighborList

/-- The constructor `NeighborList() {size_ = 0; }` run on the object storage `raw`:
it assigns `size_` and leaves both arrays as they are (uninitialised). -/
def construct (raw : NeighborList) : NeighborList :=
  { raw with size_ := 0 }

/-- The destructor `~NeighborList(){}`: an empty body. -/
def destruct (s : NeighborList) : NeighborList := s

/-- The member functions the class defines: its constructor and its destructor. -/
inductive Op where
  | ctor
  | dtor
  deriving DecidableEq, Repr

/-- Effect of a member function on the object. -/
def Op.apply : Op → NeighborList → NeighborList
  | Op.ctor, s => construct s
  | Op.dtor, s => destruct s

/-- The container invariant of the specification, `0 <= count <= capacity`, read on the
class: `count` is `size_`, `capacity` is the array length. -/
def Inv (nl : NeighborList) : Prop :=
  0 ≤ nl.size_ ∧ nl.size_ ≤ (NEIGHBOR_SIZE : Int)

instance (nl : NeighborList) : Decidable nl.Inv := by
  unfold Inv; exact inferInstance

/-- An object whose storage is all zeros, for concrete evaluations. -/
def zeroed : NeighborList :=
  { size_ := 0, ids_ := fun _ => 0, distance_ := fun _ => 0 }

/-- Read of slot `i` of the two parallel arrays. -/
def slot (nl : NeighborList) (i : Nat) : Option (Int × ℚ) :=
  if h : i < NEIGHBOR_SIZE then some (nl.ids_ ⟨i, h⟩, nl.distance_ ⟨i, h⟩) else none

/-- The valid entries `(ids_[i], distance_[i])`, `0 <= i < size_`, in index order. -/
def entries (nl : NeighborList) : List (Int × ℚ) :=
  (List.range nl.size_.toNat).filterMap nl.slot

/-- Modelled from the spec: `clear()` of section 4.1 ("resets count to 0; no other state
changes"); the class itself has no such member. -/
def clear (nl : NeighborList) : NeighborList :=
  { nl with size_ := 0 }

/-- Modelled from the spec: `tryAdd(id, distance) -> success` of section 4.1 ("appends an
entry if `count < capacity`; returns false (and leaves state unchanged) if capacity is
reached"); the class itself has no such member. -/
def tryAdd (nl : NeighborList) (id : Int) (d : ℚ) : NeighborList × Bool :=
  if h : nl.size_ < (NEIGHBOR_SIZE : Int) then
    let k : Fin NEIGHBOR_SIZE := ⟨nl.size_.toNat, (Int.toNat_lt' (by decide)).mpr h⟩
    ({ size_ := nl.size_ + 1,
       ids_ := Function.update nl.ids_ k id,
       distance_ := Function.update nl.distance_ k d }, true)
  else (nl, false)

/-- Modelled from the spec: a query populates its result by one `tryAdd` per accepted
candidate; the second component is the overflow signal (some `tryAdd` reported failure). -/
def addAll (nl : NeighborList) : List (Int × ℚ) → NeighborList × Bool
  | [] => (nl, false)
  | e :: es =>
    let r := nl.tryAdd e.1 e.2
    let rest := addAll r.1 es
    (rest.1, !r.2 || rest.2)

end NeighborList

/-! ## INeighborQuery (`sph_neighbor_query.h`)

Both member functions are pure virtual: the header fixes their signatures only. The
particle store is the caller-owned position array of the specification (a particle id is
an index into it); the Euclidean distance belongs to the concrete vector classes (`vector.h`
declares `dims()` only) and is the parameter `dist`. -/

namespace INeighborQuery

/-- Modelled from the spec: the candidates a query accepts (section 4.3), found by a
brute-force scan of the position array in index order: particle `i` at `p` is accepted when
`dist in_pos p <= in_radius` and `i` is not the excluded id; it is paired with its distance. -/
def candidates {P : Type} (dist : P → P → ℚ) (particles : List P) (in_pos : P)
    (in_radius : ℚ) (excludeId : Option Nat) : List (Int × ℚ) :=
  (List.range particles.length).filterMap fun i =>
    match particles[i]? with
    | some p =>
      if dist in_pos p ≤ in_radius ∧ excludeId ≠ some i then some ((i : Int), dist in_pos p)
      else none
    | none => none

/-- Modelled from the spec: `getNeighbors(position, radius, out)` of section 4.2 (pure
virtual in the header): fails with an invalid argument unless `radius > 0`, clears `out`,
then adds every accepted candidate. Returns `out` and the overflow signal. -/
def getNeighbors {P : Type} (dist : P → P → ℚ) (particles : List P) (in_pos : P)
    (in_radius : ℚ) (out_neighborList : NeighborList) (excludeId : Option Nat) :
    Except PhysikaError (NeighborList × Bool) :=
  if in_radius ≤ 0 then throw PhysikaError.invalidArgument
  else pure (out_neighborList.clear.addAll (candidates dist particles in_pos in_radius excludeId))

/-- Modelled from the spec: the truncation order of section 4.2, "smallest distance,
breaking ties by ascending particle id". -/
def closer (a b : Int × ℚ) : Prop :=
  a.2 < b.2 ∨ (a.2 = b.2 ∧ a.1 ≤ b.1)

instance : DecidableRel closer := fun a b => by
  unfold closer; exact inferInstance

instance closer_total : IsTotal (Int × ℚ) closer where
  total a b := by
    unfold closer
    rcases lt_trichotomy a.2 b.2 with h | h | h
    · exact Or.inl (Or.inl h)
    · rcases le_total a.1 b.1 with h' | h'
      · exact Or.inl (Or.inr ⟨h, h'⟩)
      · exact Or.inr (Or.inr ⟨h.symm, h'⟩)
    · exact Or.inr (Or.inl h)

instance closer_trans : IsTrans (Int × ℚ) closer where
  trans a b c := by
    unfold closer
    rintro (h | ⟨h, h'⟩) (k | ⟨k, k'⟩)
    · exact Or.inl (lt_trans h k)
    · exact Or.inl (k ▸ h)
    · exact Or.inl (h ▸ k)
    · exact Or.inr ⟨h.trans k, le_trans h' k'⟩

/-- Modelled from the spec: `getSizedNeighbors(position, radius, out, maxN)` of section 4.2
(pure virtual in the header): fails with an invalid argument unless `radius > 0` and
`maxN >= 0`; collects all accepted candidates, orders them by `closer`, keeps the first
`maxN`, and adds those to the cleared `out`. -/
def getSizedNeighbors {P : Type} (dist : P → P → ℚ) (particles : List P) (in_pos : P)
    (in_radius : ℚ) (out_neighborList : NeighborList) (in_maxN : Int)
    (excludeId : Option Nat) : Except PhysikaError (NeighborList × Bool) :=
  if in_radius ≤ 0 then throw PhysikaError.invalidArgument
  else if in_maxN < 0 then throw PhysikaError.invalidArgument
  else
    let found := candidates dist particles in_pos in_radius excludeId
    let kept := (found.insertionSort closer).take in_maxN.toNat
    pure (out_neighborList.clear.addAll kept)

/-- The ids of the particles within `in_radius` of `in_pos`, by definition of "within":
the reference the query results are compared with. -/
def withinRadius {P : Type} (dist : P → P → ℚ) (particles : List P) (in_pos : P)
    (in_radius : ℚ) : List Nat :=
  (List.range particles.length).filter fun i =>
    match particles[i]? with
    | some p => decide (dist in_pos p ≤ in_radius)
    | none => false

/-- The Euclidean distance of one-dimensional positions. -/
def dist1 (x y : ℚ) : ℚ := |x - y|

end INeighborQuery

/-! ## Facts about the weight functions -/

theorem intLit_3_16 : intLit 3 16 = 0 := by
  have h : Int.tdiv 3 16 = 0 := by decide
  simp [intLit, h]

theorem intLit_3_4 : intLit 3 4 = 0 := by
  have h : Int.tdiv 3 4 = 0 := by decide
  simp [intLit, h]

theorem intLit_3_8 : intLit 3 8 = 0 := by
  have h : Int.tdiv 3 8 = 0 := by decide
  simp [intLit, h]

theorem PHYSIKA_ASSERT_ok {c : Prop} [Decidable c] (h : c) :
    PHYSIKA_ASSERT c = Except.ok () := by
  simp [PHYSIKA_ASSERT, h, pure, Except.pure]

theorem sdiv_ok {x y : ℚ} (hy : y ≠ 0) : sdiv x y = Except.ok (x / y) := by
  simp [sdiv, hy, pure, Except.pure]

theorem half_ne_zero {R : ℚ} (hR : 0 < R) : (1 / 2 : ℚ) * R ≠ 0 := by
  have : (0 : ℚ) < (1 / 2) * R := by positivity
  exact ne_of_gt this

namespace JohnsonQuadraticWeightFunction

/-- For a supported dimension, a positive radius and a non-zero `PI` the `switch` block
yields a factor, dividing by a non-zero quantity. -/
theorem normalisation_ok {Dim : Int} {PI R : ℚ} (hD : Dim = 1 ∨ Dim = 2 ∨ Dim = 3)
    (hPI : PI ≠ 0) (hR : 0 < R) :
    ∃ a, normalisation Dim PI ((1 / 2) * R) = Except.ok a := by
  have hh := half_ne_zero hR
  rcases hD with h | h | h <;> subst h
  · exact ⟨_, by simp only [normalisation, if_true]; exact sdiv_ok hh⟩
  · have h2 : PI * ((1 / 2) * R) * ((1 / 2) * R) ≠ 0 :=
      mul_ne_zero (mul_ne_zero hPI hh) hh
    refine ⟨2 / (PI * ((1 / 2) * R) * ((1 / 2) * R)), ?_⟩
    rw [normalisation, if_neg (by decide), if_pos rfl]
    exact sdiv_ok h2
  · have h3 : 4 * PI * ((1 / 2) * R) * ((1 / 2) * R) * ((1 / 2) * R) ≠ 0 :=
      mul_ne_zero (mul_ne_zero (mul_ne_zero (mul_ne_zero (by norm_num) hPI) hh) hh) hh
    refine ⟨5 / (4 * PI * ((1 / 2) * R) * ((1 / 2) * R) * ((1 / 2) * R)), ?_⟩
    rw [normalisation, if_neg (by decide), if_neg (by decide), if_pos rfl]
    exact sdiv_ok h3

/-- What `weight` computes on every admissible input: zero. -/
theorem weight_eq_zero {Dim : Int} {PI r R : ℚ} (hD : Dim = 1 ∨ Dim = 2 ∨ Dim = 3)
    (hPI : PI ≠ 0) (hr : 0 ≤ r) (hR : 0 < R) : weight Dim PI r R = Except.ok 0 := by
  obtain ⟨a, ha⟩ := normalisation_ok hD hPI hR
  have h1 : PHYSIKA_ASSERT (r ≥ 0) = Except.ok () := PHYSIKA_ASSERT_ok hr
  have h2 : PHYSIKA_ASSERT (R > 0) = Except.ok () := PHYSIKA_ASSERT_ok hR
  simp only [weight, h1, h2, ha, sdiv_ok (half_ne_zero hR), intLit_3_16, intLit_3_4,
    bind, Except.bind, pure, Except.pure]
  simp

/-- What `gradient` computes on every admissible input: zero. -/
theorem gradient_eq_zero {Dim : Int} {PI r R : ℚ} (hD : Dim = 1 ∨ Dim = 2 ∨ Dim = 3)
    (hPI : PI ≠ 0) (hr : 0 ≤ r) (hR : 0 < R) :
    JohnsonQuadraticWeightFunction.gradient Dim PI r R = Except.ok 0 := by
  obtain ⟨a, ha⟩ := normalisation_ok hD hPI hR
  have h1 : PHYSIKA_ASSERT (r ≥ 0) = Except.ok () := PHYSIKA_ASSERT_ok hr
  have h2 : PHYSIKA_ASSERT (R > 0) = Except.ok () := PHYSIKA_ASSERT_ok hR
  simp only [JohnsonQuadraticWeightFunction.gradient, h1, h2, ha, sdiv_ok (half_ne_zero hR),
    intLit_3_8, intLit_3_4, bind, Except.bind, pure, Except.pure]
  simp

end JohnsonQuadraticWeightFunction

/-! ## Facts about the binary64 reading -/

namespace Binary64

end Binary64

namespace JohnsonQuadraticWeightFunction_double

end JohnsonQuadraticWeightFunction_double

/-! ## Facts about the neighbor list -/

namespace NeighborList

theorem construct_size (raw : NeighborList) : (construct raw).size_ = 0 := rfl

theorem construct_inv (raw : NeighborList) : (construct raw).Inv := by
  unfold Inv construct
  simp

theorem entries_of_size_zero {nl : NeighborList} (h : nl.size_ = 0) : nl.entries = [] := by
  simp [entries, h]

theorem clear_inv (nl : NeighborList) : nl.clear.Inv := by
  unfold Inv clear
  simp

theorem clear_entries (nl : NeighborList) : nl.clear.entries = [] :=
  entries_of_size_zero rfl

/-- A full list rejects the entry and is left as it was. -/
theorem tryAdd_full (nl : NeighborList) (id : Int) (d : ℚ)
    (h : ¬ nl.size_ < (NEIGHBOR_SIZE : Int)) : nl.tryAdd id d = (nl, false) := by
  unfold tryAdd
  rw [dif_neg h]

/-- Below capacity the entry is appended after the valid ones. -/
theorem tryAdd_room (nl : NeighborList) (id : Int) (d : ℚ) (h0 : 0 ≤ nl.size_)
    (h : nl.size_ < (NEIGHBOR_SIZE : Int)) :
    (nl.tryAdd id d).2 = true ∧ (nl.tryAdd id d).1.size_ = nl.size_ + 1 ∧
      (nl.tryAdd id d).1.entries = nl.entries ++ [(id, d)] := by
  have hk : nl.size_.toNat < NEIGHBOR_SIZE := (Int.toNat_lt' (by decide)).mpr h
  have hsucc : (nl.size_ + 1).toNat = nl.size_.toNat + 1 := by omega
  unfold tryAdd
  rw [dif_pos h]
  refine ⟨rfl, rfl, ?_⟩
  simp only [entries, hsucc, List.range_succ, List.filterMap_append]
  congr 1
  · apply List.filterMap_congr
    intro j hj
    have hj' : j < nl.size_.toNat := List.mem_range.mp hj
    have hjk : j < NEIGHBOR_SIZE := lt_trans hj' hk
    have hne : (⟨j, hjk⟩ : Fin NEIGHBOR_SIZE) ≠ ⟨nl.size_.toNat, hk⟩ := by
      intro hEq
      have := congrArg Fin.val hEq
      simp at this
      omega
    simp only [slot, dif_pos hjk, Function.update_noteq hne]
  · simp [slot, hk]

/-- Adding a batch to a list that satisfies the invariant stores the longest prefix of the
batch that fits, and signals overflow exactly when something did not fit. -/
theorem addAll_spec (es : List (Int × ℚ)) : ∀ nl : NeighborList, nl.Inv →
    (nl.addAll es).1.entries = nl.entries ++ es.take (NEIGHBOR_SIZE - nl.size_.toNat) ∧
    (nl.addAll es).1.size_ = nl.size_ + min (NEIGHBOR_SIZE - nl.size_.toNat) es.length ∧
    ((nl.addAll es).2 = true ↔ NEIGHBOR_SIZE - nl.size_.toNat < es.length) := by
  induction es with
  | nil =>
    intro nl _
    simp [addAll]
  | cons e es ih =>
    intro nl hInv
    obtain ⟨h0, h1⟩ := hInv
    have h1' : nl.size_ ≤ 150 := h1
    by_cases hlt : nl.size_ < (NEIGHBOR_SIZE : Int)
    · obtain ⟨hb, hs, he⟩ := tryAdd_room nl e.1 e.2 h0 hlt
      have hlt' : nl.size_ < 150 := hlt
      have hInv' : (nl.tryAdd e.1 e.2).1.Inv := by
        unfold Inv
        rw [hs]
        constructor
        · omega
        · show nl.size_ + 1 ≤ 150
          omega
      obtain ⟨ie, is, ib⟩ := ih _ hInv'
      have hk : NEIGHBOR_SIZE - nl.size_.toNat
          = (NEIGHBOR_SIZE - (nl.tryAdd e.1 e.2).1.size_.toNat) + 1 := by
        rw [hs]
        show 150 - nl.size_.toNat = 150 - (nl.size_ + 1).toNat + 1
        omega
      simp only [addAll]
      refine ⟨?_, ?_, ?_⟩
      · rw [ie, he, hk, List.take_succ_cons]
        simp
      · rw [is, hs, hk]
        simp only [List.length_cons]
        omega
      · rw [hb, hk]
        simp only [Bool.not_true, Bool.false_or, List.length_cons]
        rw [ib]
        omega
    · have hfull : nl.size_ = 150 := by
        have : ¬ nl.size_ < 150 := hlt
        omega
      have hk : NEIGHBOR_SIZE - nl.size_.toNat = 0 := by
        rw [hfull]
        rfl
      have hInv' : nl.Inv := ⟨h0, h1⟩
      obtain ⟨ie, is, _⟩ := ih nl hInv'
      simp only [addAll, tryAdd_full nl e.1 e.2 hlt]
      refine ⟨?_, ?_, ?_⟩
      · rw [ie, hk]
        simp
      · rw [is, hk]
        simp
      · rw [hk]
        simp

/-- Populating a cleared list: the first `NEIGHBOR_SIZE` entries of the batch are stored. -/
theorem clear_addAll (nl : NeighborList) (es : List (Int × ℚ)) :
    (nl.clear.addAll es).1.entries = es.take NEIGHBOR_SIZE ∧
    (nl.clear.addAll es).1.size_ = (min NEIGHBOR_SIZE es.length : Nat) ∧
    ((nl.clear.addAll es).2 = true ↔ NEIGHBOR_SIZE < es.length) := by
  obtain ⟨he, hs, hb⟩ := addAll_spec es nl.clear (clear_inv nl)
  have hz : nl.clear.size_.toNat = 0 := rfl
  rw [hz] at he hs hb
  rw [clear_entries] at he
  refine ⟨by simpa using he, ?_, by simpa using hb⟩
  rw [hs]
  show (0 : Int) + _ = _
  simp

end NeighborList

/-! ## Facts about the query model -/

namespace INeighborQuery

theorem mem_candidates {P : Type} (dist : P → P → ℚ) (particles : List P) (in_pos : P)
    (in_radius : ℚ) (excludeId : Option Nat) (e : Int × ℚ) :
    e ∈ candidates dist particles in_pos in_radius excludeId ↔
      ∃ (n : Nat) (p : P), particles[n]? = some p ∧ e = ((n : Int), dist in_pos p) ∧
        dist in_pos p ≤ in_radius ∧ excludeId ≠ some n := by
  unfold candidates
  rw [List.mem_filterMap]
  constructor
  · rintro ⟨n, _, hn⟩
    cases hp : particles[n]? with
    | none => simp [hp] at hn
    | some p =>
      simp only [hp] at hn
      by_cases hc : dist in_pos p ≤ in_radius ∧ excludeId ≠ some n
      · rw [if_pos hc] at hn
        exact ⟨n, p, hp, (Option.some.inj hn).symm, hc.1, hc.2⟩
      · rw [if_neg hc] at hn
        cases hn
  · rintro ⟨n, p, hp, he, hd, hx⟩
    refine ⟨n, ?_, ?_⟩
    · rw [List.mem_range]
      by_contra hlen
      rw [List.getElem?_eq_none (not_lt.mp hlen)] at hp
      cases hp
    · simp only [hp]
      rw [if_pos ⟨hd, hx⟩, he]

theorem length_filterMap_eq_filter {α β : Type} (f : α → Option β) (q : α → Bool)
    (h : ∀ a, (f a).isSome = q a) (l : List α) :
    (l.filterMap f).length = (l.filter q).length := by
  induction l with
  | nil => rfl
  | cons a l ih =>
    have ha := h a
    cases hf : f a with
    | none =>
      rw [hf] at ha
      have hq : q a = false := by simpa using ha.symm
      simp [List.filterMap_cons, hf, List.filter_cons, hq, ih]
    | some b =>
      rw [hf] at ha
      have hq : q a = true := by simpa using ha.symm
      simp [List.filterMap_cons, hf, List.filter_cons, hq, ih]

/-- Without an excluded id there is one candidate per particle within the radius. -/
theorem length_candidates {P : Type} (dist : P → P → ℚ) (particles : List P) (in_pos : P)
    (in_radius : ℚ) :
    (candidates dist particles in_pos in_radius none).length
      = (withinRadius dist particles in_pos in_radius).length := by
  unfold candidates withinRadius
  apply length_filterMap_eq_filter
  intro i
  cases particles[i]? with
  | none => rfl
  | some p =>
    by_cases hc : dist in_pos p ≤ in_radius
    · simp [hc]
    · simp [hc]

/-- Candidates carry pairwise different ids. -/
theorem nodup_candidates {P : Type} (dist : P → P → ℚ) (particles : List P) (in_pos : P)
    (in_radius : ℚ) (excludeId : Option Nat) :
    ((candidates dist particles in_pos in_radius excludeId).map Prod.fst).Nodup := by
  unfold candidates
  rw [List.map_filterMap]
  apply List.Nodup.filterMap _ (List.nodup_range _)
  intro a a' b hb hb'
  have key : ∀ (x : Nat) (y : Int), y ∈ Option.map Prod.fst
      (match particles[x]? with
        | some p =>
          if dist in_pos p ≤ in_radius ∧ excludeId ≠ some x
          then some ((x : Int), dist in_pos p) else none
        | none => none) → y = (x : Int) := by
    intro x y hy
    cases hp : particles[x]? with
    | none => simp [hp] at hy
    | some p =>
      simp only [hp] at hy
      by_cases hc : dist in_pos p ≤ in_radius ∧ excludeId ≠ some x
      · rw [if_pos hc] at hy
        simpa using hy.symm
      · rw [if_neg hc] at hy
        simp at hy
  have h1 := key a b hb
  have h2 := key a' b hb'
  omega

theorem closer_dist_le {a b : Int × ℚ} (h : closer a b) : a.2 ≤ b.2 := by
  rcases h with h | ⟨h, _⟩
  · exact le_of_lt h
  · exact le_of_eq h

/-- In a sorted list everything kept by `take` precedes everything dropped. -/
theorem sorted_take_drop {α : Type} {r : α → α → Prop} {l : List α} (h : l.Sorted r)
    (n : Nat) : ∀ a ∈ l.take n, ∀ b ∈ l.drop n, r a b := by
  have h' : (l.take n ++ l.drop n).Pairwise r := by
    rw [List.take_append_drop]
    exact h
  exact (List.pairwise_append.mp h').2.2

theorem getNeighbors_ok {P : Type} (dist : P → P → ℚ) (particles : List P) (in_pos : P)
    (in_radius : ℚ) (out : NeighborList) (excludeId : Option Nat) (hr : 0 < in_radius) :
    getNeighbors dist particles in_pos in_radius out excludeId
      = Except.ok (out.clear.addAll (candidates dist particles in_pos in_radius excludeId)) := by
  unfold getNeighbors
  rw [if_neg (not_le.mpr hr)]
  rfl

theorem getSizedNeighbors_ok {P : Type} (dist : P → P → ℚ) (particles : List P) (in_pos : P)
    (in_radius : ℚ) (out : NeighborList) (in_maxN : Int) (excludeId : Option Nat)
    (hr : 0 < in_radius) (hN : 0 ≤ in_maxN) :
    getSizedNeighbors dist particles in_pos in_radius out in_maxN excludeId
      = Except.ok (out.clear.addAll
          (((candidates dist particles in_pos in_radius excludeId).insertionSort closer).take
            in_maxN.toNat)) := by
  unfold getSizedNeighbors
  rw [if_neg (not_le.mpr hr), if_neg (not_lt.mpr hN)]
  rfl

/-- What `getNeighbors` leaves in `out`, in terms of the candidate list. -/
theorem getNeighbors_result {P : Type} (dist : P → P → ℚ) (particles : List P) (in_pos : P)
    (in_radius : ℚ) (out : NeighborList) (excludeId : Option Nat) (hr : 0 < in_radius) :
    ∃ out' overflow,
      getNeighbors dist particles in_pos in_radius out excludeId = Except.ok (out', overflow) ∧
      out'.entries
        = (candidates dist particles in_pos in_radius excludeId).take NEIGHBOR_SIZE ∧
      out'.size_
        = (min NEIGHBOR_SIZE (candidates dist particles in_pos in_radius excludeId).length
            : Nat) ∧
      (overflow = true ↔
        NEIGHBOR_SIZE < (candidates dist particles in_pos in_radius excludeId).length) := by
  obtain ⟨he, hs, hb⟩ := NeighborList.clear_addAll out
    (candidates dist particles in_pos in_radius excludeId)
  exact ⟨_, _, getNeighbors_ok dist particles in_pos in_radius out excludeId hr, he, hs, hb⟩

/-- What `getSizedNeighbors` leaves in `out`, in terms of the ordered candidate list. -/
theorem getSizedNeighbors_result {P : Type} (dist : P → P → ℚ) (particles : List P)
    (in_pos : P) (in_radius : ℚ) (out : NeighborList) (in_maxN : Int)
    (excludeId : Option Nat) (hr : 0 < in_radius) (hN : 0 ≤ in_maxN) :
    ∃ out' overflow,
      getSizedNeighbors dist particles in_pos in_radius out in_maxN excludeId
        = Except.ok (out', overflow) ∧
      out'.entries
        = ((((candidates dist particles in_pos in_radius excludeId).insertionSort closer).take
            in_maxN.toNat).take NEIGHBOR_SIZE) ∧
      out'.size_
        = (min NEIGHBOR_SIZE
            (min in_maxN.toNat (candidates dist particles in_pos in_radius excludeId).length)
            : Nat) ∧
      (overflow = true ↔ NEIGHBOR_SIZE
        < min in_maxN.toNat (candidates dist particles in_pos in_radius excludeId).length) := by
  obtain ⟨he, hs, hb⟩ := NeighborList.clear_addAll out
    (((candidates dist particles in_pos in_radius excludeId).insertionSort closer).take
      in_maxN.toNat)
  rw [List.length_take, List.length_insertionSort] at hs hb
  exact ⟨_, _, getSizedNeighbors_ok dist particles in_pos in_radius out in_maxN excludeId hr hN,
    he, hs, hb⟩

/-- The scan of `n` coincident one-dimensional particles, queried at their position. -/
theorem candidates_replicate (n : Nat) :
    candidates dist1 (List.replicate n (0 : ℚ)) 0 1 none
      = (List.range n).map fun (k : Nat) => ((k : Int), (0 : ℚ)) := by
  unfold candidates
  rw [List.length_replicate, ← List.filterMap_eq_map]
  apply List.filterMap_congr
  intro i hi
  have hi' : i < n := List.mem_range.mp hi
  simp [List.getElem?_replicate, hi', dist1]

theorem withinRadius_replicate (n : Nat) :
    withinRadius dist1 (List.replicate n (0 : ℚ)) 0 1 = List.range n := by
  unfold withinRadius
  rw [List.length_replicate, List.filter_eq_self]
  intro i hi
  have hi' : i < n := List.mem_range.mp hi
  simp [List.getElem?_replicate, hi', dist1]

end INeighborQuery

/-! ## The claims: weight functions -/

namespace JohnsonQuadraticWeightFunction

/-- C1 (the code departs from its own documentation). At `Dim = 1`, `r = 0`, `R = 2` the
formula printed by `printInfo` has the value `3/4`, while `weight` returns `0`: the literal
quotients `3/16` and `3/4` of the return statement are integer divisions. -/
theorem weight_departs_from_printInfo (PI : ℚ) :
    weight 1 PI 0 2 = Except.ok 0 ∧ printInfoFormula 1 PI 0 2 = Except.ok (3 / 4) ∧
      weight 1 PI 0 2 ≠ printInfoFormula 1 PI 0 2 := by
  have hw : weight 1 PI 0 2 = Except.ok 0 := by
    have h1 : PHYSIKA_ASSERT ((0 : ℚ) ≥ 0) = Except.ok () := PHYSIKA_ASSERT_ok (le_refl _)
    have h2 : PHYSIKA_ASSERT ((2 : ℚ) > 0) = Except.ok () := PHYSIKA_ASSERT_ok (by norm_num)
    have hh : (1 / 2 : ℚ) * 2 ≠ 0 := by norm_num
    simp only [weight, normalisation, if_true, h1, h2, sdiv_ok hh, intLit_3_16, intLit_3_4,
      bind, Except.bind, pure, Except.pure]
    simp
  have hf : printInfoFormula 1 PI 0 2 = Except.ok (3 / 4) := by
    simp only [printInfoFormula, printInfoFactor, if_true, bind, Except.bind, pure, Except.pure]
    norm_num
  refine ⟨hw, hf, ?_⟩
  rw [hw, hf]
  intro h
  have h' := Except.ok.inj h
  norm_num at h'

/-- C8. The three literal quotients are integer divisions with value zero, and for `Dim` in
{1,2,3}, `r >= 0`, `R > 0` both `weight` and `gradient` return `0`, whatever `r`, `R` and
`Dim` are. -/
theorem literal_quotients_make_zero (Dim : Int) (PI r R : ℚ)
    (hD : Dim = 1 ∨ Dim = 2 ∨ Dim = 3) (hPI : 0 < PI) (hr : 0 ≤ r) (hR : 0 < R) :
    intLit 3 16 = 0 ∧ intLit 3 4 = 0 ∧ intLit 3 8 = 0 ∧
    weight Dim PI r R = Except.ok 0 ∧
    JohnsonQuadraticWeightFunction.gradient Dim PI r R = Except.ok 0 :=
  ⟨intLit_3_16, intLit_3_4, intLit_3_8, weight_eq_zero hD (ne_of_gt hPI) hr hR,
    gradient_eq_zero hD (ne_of_gt hPI) hr hR⟩

theorem literal_quotients_make_zero_witness :
    (0 : ℚ) < 22 / 7 ∧ (0 : ℚ) ≤ 1 ∧ (0 : ℚ) < 2 ∧
      weight 3 (22 / 7) 1 2 = Except.ok 0 ∧
      JohnsonQuadraticWeightFunction.gradient 3 (22 / 7) 1 2 = Except.ok 0 :=
  have h := literal_quotients_make_zero 3 (22 / 7) 1 2 (Or.inr (Or.inr rfl)) (by norm_num)
    (by norm_num) (by norm_num)
  ⟨by norm_num, by norm_num, by norm_num, h.2.2.2.1, h.2.2.2.2⟩

/-- C9 (the code departs from the derivative it spells out). At `Dim = 1`, `r = 0`, `R = 2`
the derivative of the printed formula is `-3/4 < 0`, while `gradient` returns `0`: the
literal quotients `3/8` and `3/4` of the return statement are integer divisions. -/
theorem gradient_departs_from_derivative (PI : ℚ) :
    JohnsonQuadraticWeightFunction.gradient 1 PI 0 2 = Except.ok 0 ∧
      printInfoDerivative 1 PI 0 2 = Except.ok (-3 / 4) ∧
      ¬ (∃ v, JohnsonQuadraticWeightFunction.gradient 1 PI 0 2 = Except.ok v ∧ v < 0) := by
  have hg : JohnsonQuadraticWeightFunction.gradient 1 PI 0 2 = Except.ok 0 := by
    have h1 : PHYSIKA_ASSERT ((0 : ℚ) ≥ 0) = Except.ok () := PHYSIKA_ASSERT_ok (le_refl _)
    have h2 : PHYSIKA_ASSERT ((2 : ℚ) > 0) = Except.ok () := PHYSIKA_ASSERT_ok (by norm_num)
    have hh : (1 / 2 : ℚ) * 2 ≠ 0 := by norm_num
    simp only [JohnsonQuadraticWeightFunction.gradient, normalisation, if_true, h1, h2,
      sdiv_ok hh, intLit_3_8, intLit_3_4, bind, Except.bind, pure, Except.pure]
    simp
  have hf : printInfoDerivative 1 PI 0 2 = Except.ok (-3 / 4) := by
    simp only [printInfoDerivative, printInfoFactor, if_true, bind, Except.bind, pure,
      Except.pure]
    norm_num
  refine ⟨hg, hf, ?_⟩
  rintro ⟨v, hv, hneg⟩
  rw [hg] at hv
  have := Except.ok.inj hv
  rw [← this] at hneg
  exact lt_irrefl _ hneg

end JohnsonQuadraticWeightFunction

namespace JohnsonQuadraticWeightFunction_double

end JohnsonQuadraticWeightFunction_double

/-! ## The claims: neighbor list and neighbor query -/

namespace NeighborList

/-- C3. A freshly constructed `NeighborList` has `size_ = 0` and satisfies
`0 <= size_ <= 150`; the member functions of the class are its constructor, which
establishes the invariant on any storage, and its empty destructor, so every member
function preserves the invariant. -/
theorem fresh_list_invariant (raw s : NeighborList) (op : Op) :
    (construct raw).size_ = 0 ∧ (construct raw).Inv ∧ (NEIGHBOR_SIZE : Int) = 150 ∧
      (Op.apply Op.ctor s).Inv ∧ (s.Inv → (op.apply s).Inv) := by
  refine ⟨rfl, construct_inv raw, rfl, construct_inv s, ?_⟩
  intro hs
  cases op with
  | ctor => exact construct_inv s
  | dtor => exact hs

theorem fresh_list_invariant_witness :
    zeroed.Inv ∧ (Op.apply Op.dtor zeroed).Inv ∧ (construct zeroed).size_ = 0 :=
  have hz : zeroed.Inv := by
    unfold Inv zeroed
    decide
  have h := fresh_list_invariant zeroed zeroed Op.dtor
  ⟨hz, h.2.2.2.2 hz, h.1⟩

/-- C4, as stated, fails: no member function of `NeighborList` appends. None of them makes
the count of a non-full list grow by one. -/
theorem no_append_operation :
    ¬ ∃ op : Op, ∀ s : NeighborList, s.Inv → s.size_ < (NEIGHBOR_SIZE : Int) →
        (op.apply s).size_ = s.size_ + 1 := by
  rintro ⟨op, h⟩
  have hz : zeroed.Inv := by
    unfold Inv zeroed
    decide
  have h' := h zeroed hz (by unfold zeroed; decide)
  cases op with
  | ctor =>
    have : (0 : Int) = 0 + 1 := h'
    omega
  | dtor =>
    have : (0 : Int) = 0 + 1 := h'
    omega

/-- C4, amended. The member functions of `NeighborList` (constructor, destructor) write
neither `ids_` nor `distance_` and never make the count grow: after any of them the two
arrays are as before and `size_` is either `0` or unchanged. No write of the class lands at
any index, so none at an index `>= 150`. -/
theorem operations_never_write_arrays (op : Op) (s : NeighborList) :
    (op.apply s).ids_ = s.ids_ ∧ (op.apply s).distance_ = s.distance_ ∧
      ((op.apply s).size_ = 0 ∨ (op.apply s).size_ = s.size_) := by
  cases op with
  | ctor => exact ⟨rfl, rfl, Or.inl rfl⟩
  | dtor => exact ⟨rfl, rfl, Or.inr rfl⟩

end NeighborList

namespace INeighborQuery

/-- C5, as stated, fails. With 151 particles at the query position (one-dimensional
positions, radius 1), `getNeighbors` stores 150 entries and signals overflow: particle 150
is within the radius and is not in `out`. -/
theorem getNeighbors_misses_beyond_capacity :
    ∃ out' overflow,
      getNeighbors dist1 (List.replicate 151 (0 : ℚ)) 0 1 NeighborList.zeroed none
        = Except.ok (out', overflow) ∧
      (List.replicate 151 (0 : ℚ))[150]? = some 0 ∧ dist1 0 0 ≤ 1 ∧
      ((150 : Int), dist1 0 0) ∉ out'.entries ∧
      out'.size_ = 150 ∧ overflow = true := by
  obtain ⟨out', overflow, hcall, he, hs, hb⟩ := getNeighbors_result dist1
    (List.replicate 151 (0 : ℚ)) 0 1 NeighborList.zeroed none (by norm_num)
  refine ⟨out', overflow, hcall, ?_, ?_, ?_, ?_, ?_⟩
  · simp [List.getElem?_replicate]
  · simp [dist1]
  · rw [he, candidates_replicate, ← List.map_take, List.take_range]
    intro hmem
    obtain ⟨k, hk, hk'⟩ := List.mem_map.mp hmem
    have hk1 : k < min NEIGHBOR_SIZE 151 := List.mem_range.mp hk
    have hk2 : (k : Int) = 150 := congrArg Prod.fst hk'
    have hk3 : k < 150 := lt_of_lt_of_le hk1 (min_le_left _ _)
    omega
  · rw [hs, candidates_replicate, List.length_map, List.length_range]
    rfl
  · rw [hb, candidates_replicate, List.length_map, List.length_range]
    decide

/-- C5, amended. For `radius > 0`, `getNeighbors` returns, and `out` then satisfies the
invariant and holds only particles within the radius, each id once, paired with its
distance (no false positives). When at most 150 particles lie within the radius, every one
of them is in `out` (no false negatives) and no overflow is signalled; when more than 150
do, `out` holds exactly 150 entries and overflow is signalled. -/
theorem getNeighbors_exact_up_to_capacity {P : Type} (dist : P → P → ℚ) (particles : List P)
    (in_pos : P) (in_radius : ℚ) (out : NeighborList) (hr : 0 < in_radius) :
    ∃ out' overflow,
      getNeighbors dist particles in_pos in_radius out none = Except.ok (out', overflow) ∧
      out'.Inv ∧ (out'.entries.map Prod.fst).Nodup ∧
      (∀ e ∈ out'.entries, ∃ (n : Nat) (p : P), particles[n]? = some p ∧
          e = ((n : Int), dist in_pos p) ∧ dist in_pos p ≤ in_radius) ∧
      ((withinRadius dist particles in_pos in_radius).length ≤ NEIGHBOR_SIZE →
          overflow = false ∧
          ∀ (n : Nat) (p : P), particles[n]? = some p → dist in_pos p ≤ in_radius →
            ((n : Int), dist in_pos p) ∈ out'.entries) ∧
      (NEIGHBOR_SIZE < (withinRadius dist particles in_pos in_radius).length →
          overflow = true ∧ out'.size_ = 150 ∧ out'.entries.length = 150) := by
  obtain ⟨out', overflow, hcall, he, hs, hb⟩ := getNeighbors_result dist particles in_pos
    in_radius out none hr
  have hlen := length_candidates dist particles in_pos in_radius
  refine ⟨out', overflow, hcall, ?_, ?_, ?_, ?_, ?_⟩
  · unfold NeighborList.Inv
    rw [hs]
    constructor
    · exact Int.natCast_nonneg _
    · exact Int.ofNat_le.mpr (min_le_left _ _)
  · rw [he]
    exact List.Nodup.sublist ((List.take_sublist _ _).map _)
      (nodup_candidates dist particles in_pos in_radius none)
  · intro e hmem
    rw [he] at hmem
    obtain ⟨n, p, hp, hpair, hd, _⟩ :=
      (mem_candidates dist particles in_pos in_radius none e).mp (List.mem_of_mem_take hmem)
    exact ⟨n, p, hp, hpair, hd⟩
  · intro hfit
    rw [← hlen] at hfit
    constructor
    · cases hov : overflow with
      | false => rfl
      | true => exact absurd (hb.mp hov) (not_lt.mpr hfit)
    · intro n p hp hd
      rw [he, List.take_of_length_le hfit]
      exact (mem_candidates dist particles in_pos in_radius none _).mpr
        ⟨n, p, hp, rfl, hd, by simp⟩
  · intro hmore
    rw [← hlen] at hmore
    refine ⟨hb.mpr hmore, ?_, ?_⟩
    · rw [hs, min_eq_left (le_of_lt hmore)]
      rfl
    · rw [he, List.length_take, min_eq_left (le_of_lt hmore)]

theorem getNeighbors_exact_up_to_capacity_witness :
    (0 : ℚ) < 3 / 2 ∧
    ∃ out' overflow,
      getNeighbors dist1 [0, 1, 2, 5] 0 (3 / 2) NeighborList.zeroed none
        = Except.ok (out', overflow) ∧
      ∀ e ∈ out'.entries, ∃ (n : Nat) (p : ℚ), [(0 : ℚ), 1, 2, 5][n]? = some p ∧
          e = ((n : Int), dist1 0 p) ∧ dist1 0 p ≤ 3 / 2 :=
  have h := getNeighbors_exact_up_to_capacity dist1 [0, 1, 2, 5] 0 (3 / 2)
    NeighborList.zeroed (by norm_num)
  ⟨by norm_num, h.choose, h.choose_spec.choose, h.choose_spec.choose_spec.1,
    h.choose_spec.choose_spec.2.2.2.1⟩

/-- C6, as stated, fails. With 152 particles at the query position (one-dimensional
positions, radius 1) and `maxN = 151`, more than `maxN` particles lie within the radius,
yet `getSizedNeighbors` leaves 150 entries in `out`, not 151. -/
theorem getSizedNeighbors_short_beyond_capacity :
    ∃ out' overflow,
      getSizedNeighbors dist1 (List.replicate 152 (0 : ℚ)) 0 1 NeighborList.zeroed 151 none
        = Except.ok (out', overflow) ∧
      (151 : Int) < (withinRadius dist1 (List.replicate 152 (0 : ℚ)) 0 1).length ∧
      out'.size_ = 150 ∧ out'.entries.length = 150 ∧ out'.size_ ≠ 151 := by
  obtain ⟨out', overflow, hcall, he, hs, _⟩ := getSizedNeighbors_result dist1
    (List.replicate 152 (0 : ℚ)) 0 1 NeighborList.zeroed 151 none (by norm_num) (by norm_num)
  have hlen : (candidates dist1 (List.replicate 152 (0 : ℚ)) 0 1 none).length = 152 := by
    rw [candidates_replicate, List.length_map, List.length_range]
  have hN : (151 : Int).toNat = 151 := rfl
  rw [hlen, hN] at hs
  have hs' : out'.size_ = 150 := hs
  refine ⟨out', overflow, hcall, ?_, hs', ?_, ?_⟩
  · rw [withinRadius_replicate, List.length_range]
    decide
  · rw [he, List.length_take, List.length_take, List.length_insertionSort, hlen, hN]
    rfl
  · rw [hs']
    decide

/-- C6, amended. For `radius > 0` and `0 <= maxN <= 150`, when more than `maxN` particles
lie within the radius, `getSizedNeighbors` returns without overflow and leaves exactly
`maxN` entries in `out`: particles within the radius, each id once, paired with its
distance, and no particle within the radius that was left out is nearer than any entry. -/
theorem getSizedNeighbors_nearest_up_to_capacity {P : Type} (dist : P → P → ℚ)
    (particles : List P) (in_pos : P) (in_radius : ℚ) (out : NeighborList) (in_maxN : Int)
    (hr : 0 < in_radius) (hN : 0 ≤ in_maxN) (hcap : in_maxN ≤ (NEIGHBOR_SIZE : Int))
    (hmore : in_maxN < ((withinRadius dist particles in_pos in_radius).length : Int)) :
    ∃ out' overflow,
      getSizedNeighbors dist particles in_pos in_radius out in_maxN none
        = Except.ok (out', overflow) ∧
      overflow = false ∧ out'.size_ = in_maxN ∧ (out'.entries.length : Int) = in_maxN ∧
      (out'.entries.map Prod.fst).Nodup ∧
      (∀ e ∈ out'.entries, ∃ (n : Nat) (p : P), particles[n]? = some p ∧
          e = ((n : Int), dist in_pos p) ∧ dist in_pos p ≤ in_radius) ∧
      (∀ e ∈ out'.entries, ∀ (n : Nat) (p : P), particles[n]? = some p →
          dist in_pos p ≤ in_radius → ((n : Int), dist in_pos p) ∉ out'.entries →
          e.2 ≤ dist in_pos p) := by
  obtain ⟨out', overflow, hcall, he, hs, hb⟩ := getSizedNeighbors_result dist particles in_pos
    in_radius out in_maxN none hr hN
  have hlen := length_candidates dist particles in_pos in_radius
  have hm : ((in_maxN.toNat : Nat) : Int) = in_maxN := Int.toNat_of_nonneg hN
  have hm1 : in_maxN.toNat ≤ NEIGHBOR_SIZE := by
    have : ((in_maxN.toNat : Nat) : Int) ≤ (NEIGHBOR_SIZE : Int) := by rw [hm]; exact hcap
    exact Int.ofNat_le.mp this
  have hm2 : in_maxN.toNat < (candidates dist particles in_pos in_radius none).length := by
    rw [hlen]
    have : ((in_maxN.toNat : Nat) : Int)
        < ((withinRadius dist particles in_pos in_radius).length : Int) := by
      rw [hm]; exact hmore
    exact Int.ofNat_lt.mp this
  have hmin : min NEIGHBOR_SIZE
      (min in_maxN.toNat (candidates dist particles in_pos in_radius none).length)
      = in_maxN.toNat := by
    rw [min_eq_left (le_of_lt hm2), min_eq_right hm1]
  have hent : out'.entries
      = ((candidates dist particles in_pos in_radius none).insertionSort closer).take
          in_maxN.toNat := by
    rw [he, List.take_take, min_eq_right hm1]
  have hperm := List.perm_insertionSort closer (candidates dist particles in_pos in_radius none)
  have hsorted := List.sorted_insertionSort closer
    (candidates dist particles in_pos in_radius none)
  refine ⟨out', overflow, hcall, ?_, ?_, ?_, ?_, ?_, ?_⟩
  · cases hov : overflow with
    | false => rfl
    | true =>
      have h1 := hb.mp hov
      rw [min_eq_left (le_of_lt hm2)] at h1
      exact absurd h1 (not_lt.mpr hm1)
  · rw [hs, hmin, hm]
  · rw [hent, List.length_take, List.length_insertionSort, min_eq_left (le_of_lt hm2), hm]
  · rw [hent]
    refine List.Nodup.sublist ((List.take_sublist _ _).map _) ?_
    exact ((hperm.map Prod.fst).nodup_iff).mpr
      (nodup_candidates dist particles in_pos in_radius none)
  · intro e hmem
    rw [hent] at hmem
    have hc := hperm.mem_iff.mp (List.mem_of_mem_take hmem)
    obtain ⟨n, p, hp, hpair, hd, _⟩ :=
      (mem_candidates dist particles in_pos in_radius none e).mp hc
    exact ⟨n, p, hp, hpair, hd⟩
  · intro e hmem n p hp hd hout
    rw [hent] at hmem hout
    have hc : ((n : Int), dist in_pos p) ∈ candidates dist particles in_pos in_radius none :=
      (mem_candidates dist particles in_pos in_radius none _).mpr ⟨n, p, hp, rfl, hd, by simp⟩
    have hs' := hperm.mem_iff.mpr hc
    rw [← List.take_append_drop in_maxN.toNat
      ((candidates dist particles in_pos in_radius none).insertionSort closer)] at hs'
    rcases List.mem_append.mp hs' with h | h
    · exact absurd h hout
    · exact closer_dist_le (sorted_take_drop hsorted in_maxN.toNat e hmem _ h)

theorem getSizedNeighbors_nearest_up_to_capacity_witness :
    (0 : ℚ) < 10 ∧ (0 : Int) ≤ 1 ∧ (1 : Int) ≤ (NEIGHBOR_SIZE : Int) ∧
    ((1 : Int) < ((withinRadius dist1 [0, 1, 2, 5] 0 10).length : Int)) ∧
    ∃ out' overflow,
      getSizedNeighbors dist1 [0, 1, 2, 5] 0 10 NeighborList.zeroed 1 none
        = Except.ok (out', overflow) ∧ overflow = false ∧ out'.size_ = 1 :=
  have hmore : ((1 : Int) < ((withinRadius dist1 [0, 1, 2, 5] 0 10).length : Int)) := by
    have hw : withinRadius dist1 [0, 1, 2, 5] 0 10 = [0, 1, 2, 3] := by
      simp [withinRadius, dist1, List.range_succ, List.filter_cons]
      norm_num [abs_le]
    rw [hw]
    decide
  have h := getSizedNeighbors_nearest_up_to_capacity dist1 [0, 1, 2, 5] 0 10
    NeighborList.zeroed 1 (by norm_num) (by norm_num) (by decide) hmore
  ⟨by norm_num, by norm_num, by decide, hmore, h.choose, h.choose_spec.choose,
    h.choose_spec.choose_spec.1, h.choose_spec.choose_spec.2.1,
    h.choose_spec.choose_spec.2.2.1⟩

end INeighborQuery

end Physika
